import Mathlib

/-!
Verification of the Crypto-Portfolio-Tracker valuation core.

This file gives a shallow embedding, in Lean 4, of the Go functions of the
repository that the checked claims are about:

* `internal/domain/portfolio/asset.go` — `CalculateValue`;
* `internal/application/portfolio/service.go` — the balance-aggregation part
  of `GetPortfolioAssets`;
* the cache-aside price service (`package price`, `Service.GetPrices`,
  `Service.cacheFetchedPrices`) and the batching `RateLimitedService.GetPrices`;
* `internal/adapters/coingecko/price.go` — the `lastUpdated` choice in
  `fetchPricesBatch`;
* `internal/application/transaction/service.go` — `TransactionsByAddress`
  (enrich, filter, sort, paginate);
* `internal/domain/transaction/transaction.go` —
  `Transactions.CalculateTokensAmounts` and `SetDirectionForAddress`, together
  with the classifier `Transaction.DetectDirection`.

Go `*big.Int` values are modelled as `Option Int` (`none` is the nil pointer),
Go maps as association lists with last-writer-wins update, `time.Time` as a
`Nat` tick count, and provider/rate-limiter effects as explicit oracle
functions passed to the embedded operation.
-/

/-- ASCII lower-casing of one character, as `strings.ToLower` acts on the
ASCII addresses and method strings used by the tracker. -/
def lowerChar (c : Char) : Char :=
  if c.toNat ≥ 65 ∧ c.toNat ≤ 90 then Char.ofNat (c.toNat + 32) else c

/-- Model of Go `strings.ToLower` on the ASCII strings used by the tracker. -/
def lowerStr (s : String) : String := String.mk (s.data.map lowerChar)

/-- Association-list model of a Go `map[κ]α`: lookup of a key. -/
def alookup {κ α : Type} [DecidableEq κ] : List (κ × α) → κ → Option α
  | [], _ => none
  | e :: rest, k => if e.1 = k then some e.2 else alookup rest k

/-- Association-list model of a Go `map[κ]α`: `m[k] = v` assignment
(overwrite the key's entry if present, append otherwise; entries built this
way have pairwise-distinct keys, like a Go map). -/
def aset {κ α : Type} [DecidableEq κ] : List (κ × α) → κ → α → List (κ × α)
  | [], k, v => [(k, v)]
  | e :: rest, k, v => if e.1 = k then (k, v) :: rest else e :: aset rest k v

theorem alookup_aset_self {κ α : Type} [DecidableEq κ] (m : List (κ × α)) (k : κ)
    (v : α) : alookup (aset m k v) k = some v := by
  induction m with
  | nil => simp [aset, alookup]
  | cons e rest ih =>
    by_cases he : e.1 = k
    · simp [aset, alookup, he]
    · simp [aset, alookup, he, ih]

theorem alookup_aset_other {κ α : Type} [DecidableEq κ] (m : List (κ × α)) (k k' : κ)
    (v : α) (hne : k ≠ k') : alookup (aset m k v) k' = alookup m k' := by
  induction m with
  | nil => simp [aset, alookup, hne]
  | cons e rest ih =>
    by_cases he : e.1 = k
    · have : ¬ (k = k') := hne
      simp [aset, alookup, he, this]
    · by_cases he' : e.1 = k'
      · have hkk : ¬ (k' = k) := fun h => hne (h ▸ rfl)
        simp [aset, alookup, he, he', hkk]
      · simp [aset, alookup, he, he', ih]

/-- Token metadata (`internal/domain/token`, struct `Token`). `Decimal` is the
Go `uint8` decimals field. -/
structure Token where
  id : String
  name : String
  symbol : String
  address : String
  decimal : Nat
deriving DecidableEq, Repr

/-- `token.ZeroAddress` — the reserved native-asset key
(`internal/domain/token`, `const ZeroAddress`). -/
def ZeroAddress : String := "0x0000000000000000000000000000000000000"

/-- A point-in-time quote (`internal/domain/price`, struct `Price`).
`value` is the nilable `*big.Int` fixed-point amount, `lastUpdated` the
`time.Time` field as a tick count. -/
structure Price where
  token : Option Token
  value : Option Int
  currency : String
  lastUpdated : Nat
deriving DecidableEq, Repr

/-- `portfolio.CalculateValue` (`internal/domain/portfolio/asset.go`):
returns `none` when the amount, the price, or the price's value is nil;
returns `0` for a zero amount; otherwise Euclidean-divides
`amount * price.Value` by `10 ^ decimals` (Go `big.Int.Div` is Euclidean
division, which is floor division for the positive divisor used here). -/
def CalculateValue (decimals : Nat) (amount : Option Int) (priceValue : Option Price) :
    Option Int :=
  match amount, priceValue with
  | none, _ => none
  | _, none => none
  | some amt, some p =>
    match p.value with
    | none => none
    | some pv =>
      if amt = 0 then some 0
      else some (Int.ediv (amt * pv) ((10 : Int) ^ decimals))

/-- The claim's zero-amount clause, read off the spec's words: value `0` for a
zero amount even when no price is supplied. Kept separate from
`CalculateValue` (the source translation) for the refutation of C1. -/
def CalculateValueClaimedZero (decimals : Nat) (amount : Option Int)
    (priceValue : Option Price) : Option Int :=
  if amount = some 0 then some 0 else CalculateValue decimals amount priceValue

/-- C1 counterexample: `CalculateValue` with amount `0` and a nil price returns
nil (`none`), not `0` — the nil-price check precedes the zero-amount check —
so the claim's "for amount == 0 the value is 0 even when no price is supplied"
is false at decimals 18, amount 0, price nil. -/
theorem C1_counterexample :
    CalculateValue 18 (some 0) none = none ∧
      CalculateValue 18 (some 0) none ≠ CalculateValueClaimedZero 18 (some 0) none := by
  constructor
  · rfl
  · intro h
    simp [CalculateValue, CalculateValueClaimedZero] at h

/-- C1 (amended): for every balance entry with a resolved quote (non-nil price
with non-nil value), `CalculateValue` is exactly
`floor(amount * price.value / 10^decimals)` in exact integer arithmetic —
in particular amount `500000000000000000` with 18 decimals and price
`300000000000` yields `150000000000`, and a zero amount with a resolved quote
yields `0` — while with no price supplied the result is nil even for a zero
amount. -/
theorem C1_calculateValue_floor :
    (∀ (d : Nat) (amt pv : Int) (tok : Option Token) (cur : String) (lu : Nat),
        CalculateValue d (some amt) (some ⟨tok, some pv, cur, lu⟩) =
          some (Int.ediv (amt * pv) ((10 : Int) ^ d))) ∧
      CalculateValue 18 (some 500000000000000000)
          (some ⟨none, some 300000000000, "USD", 0⟩) = some 150000000000 ∧
      (∀ (d : Nat) (pv : Int) (tok : Option Token) (cur : String) (lu : Nat),
        CalculateValue d (some 0) (some ⟨tok, some pv, cur, lu⟩) = some 0) ∧
      (∀ (d : Nat) (amt : Option Int), CalculateValue d amt none = none) := by
  refine ⟨?_, ?_, ?_, ?_⟩
  · intro d amt pv tok cur lu
    by_cases h : amt = 0
    · subst h
      simp only [CalculateValue, if_pos]
      rw [Int.zero_mul]
      exact congrArg some (Int.zero_ediv _).symm
    · simp [CalculateValue, h]
  · decide
  · intro d pv tok cur lu
    simp [CalculateValue]
  · intro d amt
    cases amt <;> rfl

/-- A typed, directional transfer (`internal/domain/transaction`, struct
`Transaction`). Nilable `*big.Int` fields are `Option Int`; `time.Time` is a
`Nat` tick count; the enumerated string types (`TransactionType`,
`TransactionStatus`, `TransactionDirection`) are plain strings as in Go. -/
structure Transaction where
  id : String
  hash : String
  fromAddr : String
  toAddr : String
  tokenAddress : String
  tokenSymbol : String
  amount : Option Int
  txType : String
  status : String
  gasPrice : Option Int
  gasUsed : Option Int
  method : String
  methodSig : String
  direction : String
  timestamp : Nat
  blockNumber : Int
deriving DecidableEq, Repr

/-- `Transaction.DetectDirection` (classifier variant, `package transaction`):
lower-cases both sides, returns `out` when `from` matches the queried address,
`in` when `to` matches, and defaults to `out` when neither side matches. -/
def DetectDirection (tx : Transaction) (address : String) : String :=
  let fromL := lowerStr tx.fromAddr
  let toL := lowerStr tx.toAddr
  let addr := lowerStr address
  if fromL = addr then "out"
  else if toL = addr then "in"
  else "out"

/-- One step of the `Transactions.CalculateTokensAmounts` loop
(`internal/domain/transaction/transaction.go`): skip nil amounts and empty
directions, ensure a zero accumulator exists for the lower-cased token key,
then add for `in` and subtract for `out`. -/
def calcTokensStep (balances : List (String × Int)) (tx : Transaction) :
    List (String × Int) :=
  match tx.amount with
  | none => balances
  | some amt =>
    if tx.direction = "" then balances
    else
      let tokenKey := lowerStr tx.tokenAddress
      let cur := (alookup balances tokenKey).getD 0
      if tx.direction = "in" then aset balances tokenKey (cur + amt)
      else if tx.direction = "out" then aset balances tokenKey (cur - amt)
      else aset balances tokenKey cur

/-- `Transactions.CalculateTokensAmounts`: the net per-token balance map
derived from transaction history alone. -/
def CalculateTokensAmounts (txs : List Transaction) : List (String × Int) :=
  txs.foldl calcTokensStep []

/-- A transaction touches the balance key `k`: non-nil amount, non-empty
direction, lower-cased token address equal to `k`. -/
def relevantTx (tx : Transaction) (k : String) : Bool :=
  tx.amount.isSome && !(tx.direction == "") && (lowerStr tx.tokenAddress == k)

/-- Signed contribution of a single transaction to its token's balance:
`+amount` for direction `in`, `-amount` for `out`, `0` otherwise. -/
def txContribution (tx : Transaction) : Int :=
  match tx.amount with
  | none => 0
  | some amt =>
    if tx.direction = "in" then amt
    else if tx.direction = "out" then -amt
    else 0

/-- Net signed amount of a transaction list on balance key `k`. -/
def netAmount : List Transaction → String → Int
  | [], _ => 0
  | tx :: rest, k => (if relevantTx tx k then txContribution tx else 0) + netAmount rest k

theorem calcTokens_fold_lookup (txs : List Transaction) (m : List (String × Int))
    (k : String) :
    alookup (txs.foldl calcTokensStep m) k =
      match alookup m k with
      | some v => some (v + netAmount txs k)
      | none =>
        if txs.any (fun tx => relevantTx tx k) then some (netAmount txs k) else none := by
  induction txs generalizing m with
  | nil =>
    cases h : alookup m k with
    | none => simp [netAmount, h]
    | some v => simp [netAmount, h]
  | cons tx rest ih =>
    rw [List.foldl_cons, ih]
    cases hamt : tx.amount with
    | none =>
      have hrel : relevantTx tx k = false := by
        simp [relevantTx, hamt]
      simp [calcTokensStep, hamt, netAmount, hrel, List.any_cons]
    | some amt =>
      by_cases hdir : tx.direction = ""
      · have hrel : relevantTx tx k = false := by
          simp [relevantTx, hdir]
        simp [calcTokensStep, hamt, hdir, netAmount, hrel, List.any_cons]
      · by_cases hkey : lowerStr tx.tokenAddress = k
        · have hrel : relevantTx tx k = true := by
            simp [relevantTx, hamt, hdir, hkey]
          have hcontrib :
              txContribution tx =
                (if tx.direction = "in" then amt
                 else if tx.direction = "out" then -amt else 0) := by
            simp [txContribution, hamt]
          have hstep : alookup (calcTokensStep m tx) k =
              some ((alookup m k).getD 0 + txContribution tx) := by
            simp only [calcTokensStep, hamt, if_neg hdir, hkey]
            by_cases hin : tx.direction = "in"
            · rw [if_pos hin, alookup_aset_self, hcontrib, if_pos hin]
            · by_cases hout : tx.direction = "out"
              · rw [if_neg hin, if_pos hout, alookup_aset_self, hcontrib,
                  if_neg hin, if_pos hout, sub_eq_add_neg]
              · rw [if_neg hin, if_neg hout, alookup_aset_self, hcontrib,
                  if_neg hin, if_neg hout, add_zero]
          rw [hstep]
          cases hm : alookup m k with
          | none =>
            simp only [hm, Option.getD_none, netAmount, hrel, if_pos, List.any_cons,
              Bool.true_or, if_true]
            rw [zero_add]
          | some v =>
            simp only [hm, Option.getD_some, netAmount, hrel, if_pos,
              Option.some.injEq]
            ring
        · have hrel : relevantTx tx k = false := by
            simp [relevantTx, hkey]
          have hstep : alookup (calcTokensStep m tx) k = alookup m k := by
            simp only [calcTokensStep, hamt, if_neg hdir]
            by_cases hin : tx.direction = "in"
            · simp only [if_pos hin]
              exact alookup_aset_other m _ k _ hkey
            · by_cases hout : tx.direction = "out"
              · simp only [if_neg hin, if_pos hout]
                exact alookup_aset_other m _ k _ hkey
              · simp only [if_neg hin, if_neg hout]
                exact alookup_aset_other m _ k _ hkey
          rw [hstep]
          simp [netAmount, hrel, List.any_cons]

/-- C7: `CalculateTokensAmounts` is a pure reduction: a key is present in the
result exactly when some transaction with a non-nil amount and a non-empty
direction has that lower-cased token-address key, and its value is the net
signed amount (add for `in`, subtract for `out`, nothing for nil amounts or
unknown directions); in particular `{in: 100, out: 40}` on token `0xTokenX`
(plus a nil-amount and an empty-direction transaction) yields `{0xtokenx: 60}`. -/
theorem C7_calculateTokensAmounts :
    (∀ (txs : List Transaction) (k : String),
        alookup (CalculateTokensAmounts txs) k =
          if txs.any (fun tx => relevantTx tx k) then some (netAmount txs k) else none) ∧
      CalculateTokensAmounts
        [⟨"1", "", "", "", "0xTokenX", "", some 100, "", "", none, none, "", "", "in", 0, 0⟩,
         ⟨"2", "", "", "", "0xTokenX", "", some 40, "", "", none, none, "", "", "out", 0, 0⟩,
         ⟨"3", "", "", "", "0xTokenX", "", none, "", "", none, none, "", "", "in", 0, 0⟩,
         ⟨"4", "", "", "", "0xTokenX", "", some 7, "", "", none, none, "", "", "", 0, 0⟩] =
        [("0xtokenx", 60)] := by
  constructor
  · intro txs k
    have h := calcTokens_fold_lookup txs [] k
    simpa [CalculateTokensAmounts, alookup] using h
  · rfl

/-- C8: direction detection (`Transaction.DetectDirection`) compares the
lower-cased addresses: `out` when `from` matches the queried address, `in`
when `to` matches (and `from` does not), and the default `out` when neither
side matches. -/
theorem C8_detectDirection (tx : Transaction) (address : String) :
    (lowerStr tx.fromAddr = lowerStr address → DetectDirection tx address = "out") ∧
      (lowerStr tx.fromAddr ≠ lowerStr address → lowerStr tx.toAddr = lowerStr address →
        DetectDirection tx address = "in") ∧
      (lowerStr tx.fromAddr ≠ lowerStr address → lowerStr tx.toAddr ≠ lowerStr address →
        DetectDirection tx address = "out") := by
  refine ⟨?_, ?_, ?_⟩
  · intro h1
    simp [DetectDirection, h1]
  · intro h1 h2
    simp [DetectDirection, h1, h2]
  · intro h1 h2
    simp [DetectDirection, h1, h2]

/-- C8 witness: the three cases of `C8_detectDirection` at concrete
mixed-case inputs (`from = 0xAB`, `to = 0xCD`). -/
theorem C8_detectDirection_witness :
    DetectDirection ⟨"", "", "0xAB", "0xCD", "", "", none, "", "", none, none, "", "", "", 0, 0⟩
        "0xaB" = "out" ∧
      DetectDirection ⟨"", "", "0xAB", "0xCD", "", "", none, "", "", none, none, "", "", "", 0, 0⟩
        "0xCd" = "in" ∧
      DetectDirection ⟨"", "", "0xAB", "0xCD", "", "", none, "", "", none, none, "", "", "", 0, 0⟩
        "0xEE" = "out" :=
  ⟨(C8_detectDirection _ "0xaB").1 (by decide),
   (C8_detectDirection _ "0xCd").2.1 (by decide) (by decide),
   (C8_detectDirection _ "0xEE").2.2 (by decide) (by decide)⟩

/-- A stored holding (`internal/domain/holding`, struct `Holding`): nilable
token metadata and nilable amount, the two fields the aggregation reads. -/
structure Holding where
  token : Option Token
  amount : Option Int
deriving DecidableEq, Repr

/-- The holdings loop of `GetPortfolioAssets`
(`internal/application/portfolio/service.go`): skip nil token/amount, sum into
the lower-cased token-address key. -/
def addHoldingBalance (m : List (String × Int)) (h : Holding) :
    List (String × Int) :=
  match h.token, h.amount with
  | some tok, some amt =>
    let tokenAddr := lowerStr tok.address
    match alookup m tokenAddr with
    | some existing => aset m tokenAddr (existing + amt)
    | none => aset m tokenAddr amt
  | _, _ => m

/-- The transaction-balance loop of `GetPortfolioAssets`: skip the native
(empty-string) key, add each derived balance into the aggregate. -/
def addTxBalance (m : List (String × Int)) (kv : String × Int) :
    List (String × Int) :=
  if kv.1 = "" then m
  else
    match alookup m kv.1 with
    | some existing => aset m kv.1 (existing + kv.2)
    | none => aset m kv.1 kv.2

/-- The aggregated-balance construction inside `GetPortfolioAssets`
(`internal/application/portfolio/service.go`, the part between the holdings
loop and the `filteredBalances` loop): holdings summed per lower-cased token
address, non-native transaction-derived balances added, the native
(`ZeroAddress`) entry overwritten by the live balance only when it was
obtained (non-nil) and positive, and non-positive entries dropped. -/
def GetPortfolioAssetsBalanceMap (holdings : List Holding)
    (txBalances : List (String × Int)) (ethBalance : Option Int) :
    List (String × Int) :=
  let m1 := holdings.foldl addHoldingBalance []
  let m2 := txBalances.foldl addTxBalance m1
  let m3 :=
    match ethBalance with
    | some e => if e > 0 then aset m2 ZeroAddress e else m2
    | none => m2
  m3.filter (fun kv => kv.2 > 0)

/-- Modelled from the claim's words, for the refutation of C2: every
transaction-derived per-token balance is added (the native key included) and
the native entry is overwritten by the live balance whenever one was obtained,
positive or not. -/
def GetPortfolioAssetsBalanceMapClaimed (holdings : List Holding)
    (txBalances : List (String × Int)) (ethBalance : Option Int) :
    List (String × Int) :=
  let m1 := holdings.foldl addHoldingBalance []
  let m2 := txBalances.foldl
    (fun m kv =>
      match alookup m kv.1 with
      | some existing => aset m kv.1 (existing + kv.2)
      | none => aset m kv.1 kv.2) m1
  let m3 :=
    match ethBalance with
    | some e => aset m2 ZeroAddress e
    | none => m2
  m3.filter (fun kv => kv.2 > 0)

/-- C2 counterexample: (a) with one native holding of 5 and a live native
balance that was obtained but equals 0, the code keeps the native entry at 5
while the claim's "overwrite whenever one was obtained" predicts the entry is
overwritten to 0 and dropped; (b) a transaction-derived balance under the
native (empty-string) key is skipped by the code but added under the claim's
"every transaction-derived per-token balance". -/
theorem C2_counterexample :
    GetPortfolioAssetsBalanceMap
        [⟨some ⟨"ethereum", "Ethereum", "ETH", ZeroAddress, 18⟩, some 5⟩] [] (some 0) =
      [(ZeroAddress, 5)] ∧
      GetPortfolioAssetsBalanceMapClaimed
          [⟨some ⟨"ethereum", "Ethereum", "ETH", ZeroAddress, 18⟩, some 5⟩] [] (some 0) =
        [] ∧
      GetPortfolioAssetsBalanceMap [] [("", 7)] none = [] ∧
      GetPortfolioAssetsBalanceMapClaimed [] [("", 7)] none = [("", 7)] := by
  refine ⟨by decide, by decide, by decide, by decide⟩

theorem alookup_eq_none_iff {α : Type} (m : List (String × α)) (k : String) :
    alookup m k = none ↔ k ∉ m.map Prod.fst := by
  induction m with
  | nil => simp [alookup]
  | cons e rest ih =>
    by_cases he : e.1 = k
    · simp [alookup, he]
    · have hne : ¬ (k = e.1) := fun h => he h.symm
      simp [alookup, he, hne, ih]

theorem aset_map_fst {α : Type} (m : List (String × α)) (k : String) (v : α) :
    (aset m k v).map Prod.fst =
      if k ∈ m.map Prod.fst then m.map Prod.fst else m.map Prod.fst ++ [k] := by
  induction m with
  | nil => simp [aset]
  | cons e rest ih =>
    by_cases he : e.1 = k
    · simp [aset, he]
    · have hne : ¬ (k = e.1) := fun h => he h.symm
      by_cases hk : k ∈ rest.map Prod.fst
      · simp [aset, he, hne, hk, ih]
      · simp [aset, he, hne, hk, ih]

theorem keysNodup_aset {α : Type} (m : List (String × α)) (k : String) (v : α)
    (h : (m.map Prod.fst).Nodup) : ((aset m k v).map Prod.fst).Nodup := by
  rw [aset_map_fst]
  by_cases hk : k ∈ m.map Prod.fst
  · simpa [hk] using h
  · rw [if_neg hk]
    rw [List.nodup_append]
    exact ⟨h, List.nodup_singleton k, by
      intro a ha hmem
      rw [List.mem_singleton] at hmem
      exact hk (hmem ▸ ha)⟩

theorem keysNodup_addHoldingBalance (m : List (String × Int)) (h : Holding)
    (hnd : (m.map Prod.fst).Nodup) :
    ((addHoldingBalance m h).map Prod.fst).Nodup := by
  unfold addHoldingBalance
  cases h.token with
  | none => exact hnd
  | some tok =>
    cases h.amount with
    | none => exact hnd
    | some amt =>
      simp only
      cases hm : alookup m (lowerStr tok.address) with
      | none =>
        simp only [hm]
        exact keysNodup_aset _ _ _ hnd
      | some v =>
        simp only [hm]
        exact keysNodup_aset _ _ _ hnd

theorem keysNodup_addTxBalance (m : List (String × Int)) (kv : String × Int)
    (hnd : (m.map Prod.fst).Nodup) :
    ((addTxBalance m kv).map Prod.fst).Nodup := by
  unfold addTxBalance
  by_cases hk : kv.1 = ""
  · simpa [hk] using hnd
  · rw [if_neg hk]
    cases alookup m kv.1 <;> exact keysNodup_aset _ _ _ hnd

theorem keysNodup_foldl_holdings (hs : List Holding) (m : List (String × Int))
    (hnd : (m.map Prod.fst).Nodup) :
    (((hs.foldl addHoldingBalance m)).map Prod.fst).Nodup := by
  induction hs generalizing m with
  | nil => exact hnd
  | cons hd rest ih =>
    rw [List.foldl_cons]
    exact ih _ (keysNodup_addHoldingBalance m hd hnd)

theorem keysNodup_foldl_tx (tb : List (String × Int)) (m : List (String × Int))
    (hnd : (m.map Prod.fst).Nodup) :
    (((tb.foldl addTxBalance m)).map Prod.fst).Nodup := by
  induction tb generalizing m with
  | nil => exact hnd
  | cons kv rest ih =>
    rw [List.foldl_cons]
    exact ih _ (keysNodup_addTxBalance m kv hnd)

theorem alookup_filter_pos (m : List (String × Int)) (k : String)
    (hnd : (m.map Prod.fst).Nodup) :
    alookup (m.filter (fun kv => kv.2 > 0)) k =
      match alookup m k with
      | some v => if v > 0 then some v else none
      | none => none := by
  induction m with
  | nil => rfl
  | cons e rest ih =>
    have hnd' : (rest.map Prod.fst).Nodup := (List.nodup_cons.mp (by simpa using hnd)).2
    have hnotin : e.1 ∉ rest.map Prod.fst := (List.nodup_cons.mp (by simpa using hnd)).1
    by_cases he : e.1 = k
    · subst he
      by_cases hpos : e.2 > 0
      · simp [List.filter_cons, alookup, hpos]
      · have hrest : alookup rest e.1 = none := (alookup_eq_none_iff rest e.1).mpr hnotin
        simp [List.filter_cons, alookup, hpos, ih hnd', hrest]
    · by_cases hpos : e.2 > 0
      · simp [List.filter_cons, alookup, hpos, he, ih hnd']
      · simp [List.filter_cons, alookup, hpos, he, ih hnd']

/-- The per-holding key/amount pair read by the holdings loop (`nil` when the
holding has a nil token or amount). -/
def holdingKeyAmt (h : Holding) : Option (String × Int) :=
  match h.token, h.amount with
  | some tok, some amt => some (lowerStr tok.address, amt)
  | _, _ => none

/-- Sum of holding amounts under balance key `k`. -/
def holdingsSum : List Holding → String → Int
  | [], _ => 0
  | h :: rest, k =>
    (match holdingKeyAmt h with
     | some ka => if ka.1 = k then ka.2 else 0
     | none => 0) + holdingsSum rest k

/-- Some holding contributes to balance key `k`. -/
def holdingsHas (hs : List Holding) (k : String) : Bool :=
  hs.any (fun h =>
    match holdingKeyAmt h with
    | some ka => ka.1 == k
    | none => false)

theorem addHoldingBalance_lookup (m : List (String × Int)) (h : Holding) (k : String) :
    alookup (addHoldingBalance m h) k =
      match holdingKeyAmt h with
      | some ka =>
        if ka.1 = k then some ((alookup m k).getD 0 + ka.2) else alookup m k
      | none => alookup m k := by
  unfold addHoldingBalance holdingKeyAmt
  cases h.token with
  | none => simp
  | some tok =>
    cases h.amount with
    | none => simp
    | some amt =>
      simp only
      by_cases hk : lowerStr tok.address = k
      · subst hk
        cases hm : alookup m (lowerStr tok.address) with
        | none => simp [hm, alookup_aset_self]
        | some v => simp [hm, alookup_aset_self]
      · rw [if_neg hk]
        cases hm : alookup m (lowerStr tok.address) with
        | none => exact alookup_aset_other m _ k _ hk
        | some v => exact alookup_aset_other m _ k _ hk

theorem holdings_fold_lookup (hs : List Holding) (m : List (String × Int)) (k : String) :
    alookup (hs.foldl addHoldingBalance m) k =
      match alookup m k with
      | some v => some (v + holdingsSum hs k)
      | none => if holdingsHas hs k then some (holdingsSum hs k) else none := by
  induction hs generalizing m with
  | nil => cases h : alookup m k <;> simp [holdingsSum, holdingsHas, h]
  | cons hd rest ih =>
    rw [List.foldl_cons, ih, addHoldingBalance_lookup]
    cases hka : holdingKeyAmt hd with
    | none =>
      cases hm : alookup m k with
      | none => simp [holdingsSum, holdingsHas, hka, List.any_cons, hm]
      | some v => simp [holdingsSum, holdingsHas, hka, List.any_cons, hm]
    | some ka =>
      by_cases hk : ka.1 = k
      · cases hm : alookup m k with
        | none =>
          simp only [hka, hm, if_pos hk, Option.getD_none]
          simp [holdingsSum, holdingsHas, hka, hk, List.any_cons]
        | some v =>
          simp only [hka, hm, if_pos hk, Option.getD_some]
          simp only [holdingsSum, holdingsHas, hka, hk, if_pos, Option.some.injEq]
          ring
      · cases hm : alookup m k with
        | none => simp [holdingsSum, holdingsHas, hka, hk, List.any_cons, hm]
        | some v => simp [holdingsSum, holdingsHas, hka, hk, List.any_cons, hm]

/-- Sum of non-native transaction-derived balances under key `k`. -/
def txAddSum : List (String × Int) → String → Int
  | [], _ => 0
  | kv :: rest, k =>
    (if kv.1 = k ∧ kv.1 ≠ "" then kv.2 else 0) + txAddSum rest k

/-- Some non-native transaction-derived balance entry has key `k`. -/
def txAddHas (tb : List (String × Int)) (k : String) : Bool :=
  tb.any (fun kv => kv.1 == k && kv.1 != "")

theorem addTxBalance_lookup (m : List (String × Int)) (kv : String × Int) (k : String) :
    alookup (addTxBalance m kv) k =
      if kv.1 = k ∧ kv.1 ≠ "" then some ((alookup m k).getD 0 + kv.2)
      else alookup m k := by
  unfold addTxBalance
  by_cases hk0 : kv.1 = ""
  · simp [hk0]
  · rw [if_neg hk0]
    by_cases hk : kv.1 = k
    · subst hk
      cases hm : alookup m kv.1 with
      | none => simp [hm, alookup_aset_self, hk0]
      | some v => simp [hm, alookup_aset_self, hk0]
    · have : ¬ (kv.1 = k ∧ kv.1 ≠ "") := fun hc => hk hc.1
      rw [if_neg this]
      cases hm : alookup m kv.1 with
      | none => exact alookup_aset_other m _ k _ hk
      | some v => exact alookup_aset_other m _ k _ hk

theorem txadd_fold_lookup (tb : List (String × Int)) (m : List (String × Int))
    (k : String) :
    alookup (tb.foldl addTxBalance m) k =
      match alookup m k with
      | some v => some (v + txAddSum tb k)
      | none => if txAddHas tb k then some (txAddSum tb k) else none := by
  induction tb generalizing m with
  | nil => cases h : alookup m k <;> simp [txAddSum, txAddHas, h]
  | cons kv rest ih =>
    rw [List.foldl_cons, ih, addTxBalance_lookup]
    by_cases hk : kv.1 = k ∧ kv.1 ≠ ""
    · obtain ⟨h1, h2⟩ := hk
      subst h1
      rw [if_pos ⟨rfl, h2⟩]
      have hb : (kv.1 == kv.1 && kv.1 != "") = true := by simp [h2]
      cases hm : alookup m kv.1 with
      | none =>
        simp only [hm, Option.getD_none]
        simp only [txAddSum, txAddHas, List.any_cons, hb, Bool.true_or, if_true,
          if_pos (And.intro rfl h2), Option.some.injEq]
        rw [if_pos ⟨trivial, h2⟩]
        ring
      | some v =>
        simp only [hm, Option.getD_some]
        simp only [txAddSum, if_pos (And.intro rfl h2), Option.some.injEq]
        rw [if_pos ⟨trivial, h2⟩]
        ring
    · have hb : (kv.1 == k && kv.1 != "") = false := by
        rcases not_and_or.mp hk with h1 | h2
        · simp [h1]
        · have h0 : kv.1 = "" := not_not.mp h2
          simp [h0]
      rw [if_neg hk]
      cases hm : alookup m k with
      | none =>
        simp only [hm, txAddSum, txAddHas, List.any_cons, hb, Bool.false_or,
          if_neg hk, zero_add]
      | some v =>
        simp only [hm, txAddSum, if_neg hk, zero_add]

/-- The holdings-plus-transactions base balance for key `k` (before the live
native overwrite and the positivity filter). -/
def aggBase (hs : List Holding) (tb : List (String × Int)) (k : String) : Option Int :=
  match (if holdingsHas hs k then some (holdingsSum hs k) else none) with
  | some a => some (a + txAddSum tb k)
  | none => if txAddHas tb k then some (txAddSum tb k) else none

/-- The base balance after the conditional live-native overwrite. -/
def aggWithEth (hs : List Holding) (tb : List (String × Int)) (eth : Option Int)
    (k : String) : Option Int :=
  if k = ZeroAddress then
    match eth with
    | some e => if e > 0 then some e else aggBase hs tb k
    | none => aggBase hs tb k
  else aggBase hs tb k

/-- The expected per-key content of the aggregated, filtered balance map. -/
def aggExpected (hs : List Holding) (tb : List (String × Int)) (eth : Option Int)
    (k : String) : Option Int :=
  match aggWithEth hs tb eth k with
  | some v => if v > 0 then some v else none
  | none => none

/-- C2 (amended): the aggregated balance map of `GetPortfolioAssets` is built
by summing stored holdings per lower-cased token address (native key
reserved), adding every transaction-derived balance with a non-native
(non-empty) key — the native-key transaction balance is skipped — then
overwriting the native entry with the live on-chain balance only when one was
obtained and is positive; afterwards every entry with balance ≤ 0 is dropped.
Pointwise: looking up any key in the result yields exactly `aggExpected`. -/
theorem C2_aggregatedBalances (hs : List Holding) (tb : List (String × Int))
    (eth : Option Int) (k : String) :
    alookup (GetPortfolioAssetsBalanceMap hs tb eth) k = aggExpected hs tb eth k := by
  have hnd1 : (((hs.foldl addHoldingBalance []).map Prod.fst)).Nodup :=
    keysNodup_foldl_holdings hs [] (by simp)
  have hnd2 : (((tb.foldl addTxBalance (hs.foldl addHoldingBalance [])).map Prod.fst)).Nodup :=
    keysNodup_foldl_tx tb _ hnd1
  have hbase : alookup (tb.foldl addTxBalance (hs.foldl addHoldingBalance [])) k =
      aggBase hs tb k := by
    rw [txadd_fold_lookup, holdings_fold_lookup]
    show (match (match (none : Option Int) with
      | some v => some (v + holdingsSum hs k)
      | none => if holdingsHas hs k then some (holdingsSum hs k) else none) with
      | some v => some (v + txAddSum tb k)
      | none => if txAddHas tb k then some (txAddSum tb k) else none) = aggBase hs tb k
    unfold aggBase
    by_cases hh : holdingsHas hs k = true
    · simp [hh]
    · simp [hh]
  unfold GetPortfolioAssetsBalanceMap aggExpected aggWithEth
  cases eth with
  | none =>
    rw [alookup_filter_pos _ k hnd2, hbase]
    by_cases hz : k = ZeroAddress <;> simp [hz]
  | some e =>
    by_cases hpos : e > 0
    · simp only [if_pos hpos]
      have hnd3 := keysNodup_aset _ ZeroAddress e hnd2
      rw [alookup_filter_pos _ k hnd3]
      by_cases hz : k = ZeroAddress
      · subst hz
        rw [alookup_aset_self]
        simp [hpos]
      · rw [alookup_aset_other _ _ _ _ (fun h => hz h.symm), hbase]
        simp [hz]
    · simp only [if_neg hpos]
      rw [alookup_filter_pos _ k hnd2, hbase]
      by_cases hz : k = ZeroAddress <;> simp [hz, hpos]

/-- `Service.cacheKey` (`package price`): `fmt.Sprintf("%s:%s", addr, currency)`. -/
def cacheKey (tokenAddress currency : String) : String :=
  tokenAddress ++ ":" ++ currency

/-- The distinct cache keys of the requested tokens that are present in the
cache — the key set of the Go `cachedPrices := cache.GetBatch(cacheKeys)`
map, iterated in first-appearance order of `cacheKeys`. -/
def foundKeys (cache : List (String × Price)) (tokens : List Token)
    (currency : String) : List String :=
  ((tokens.map (fun t => cacheKey t.address currency)).dedup).filter
    (fun k => (alookup cache k).isSome)

/-- The Go `tokenToKey` map (built token by token, later writes overwriting
earlier ones): the last requested token with the given cache key. -/
def tokenForKey (tokens : List Token) (currency : String) (k : String) :
    Option Token :=
  (tokens.filter (fun t => cacheKey t.address currency == k)).getLast?

/-- One iteration of the first loop of `Service.GetPrices` over the
batch-read cache entries: a fresh entry (`now - lastUpdated < ttl`) goes into
the results map, a stale one appends its token to the missed list. -/
def cacheScanStep (cache : List (String × Price)) (ttl now : Nat)
    (tokens : List Token) (currency : String)
    (acc : List (Token × Price) × List Token) (k : String) :
    List (Token × Price) × List Token :=
  match alookup cache k, tokenForKey tokens currency k with
  | some p, some t =>
    if now - p.lastUpdated < ttl then (aset acc.1 t p, acc.2)
    else (acc.1, acc.2 ++ [t])
  | _, _ => acc

/-- The first loop of `Service.GetPrices` over the batch-read cache entries. -/
def cacheScan (cache : List (String × Price)) (ttl now : Nat)
    (tokens : List Token) (currency : String) :
    List (Token × Price) × List Token :=
  (foundKeys cache tokens currency).foldl
    (cacheScanStep cache ttl now tokens currency) ([], [])

/-- The cache-hit results collected by the first loop of `Service.GetPrices`. -/
def cachedResults (cache : List (String × Price)) (ttl now : Nat)
    (tokens : List Token) (currency : String) : List (Token × Price) :=
  (cacheScan cache ttl now tokens currency).1

/-- The missed-token list of `Service.GetPrices`: stale cache hits from the
first loop followed by every requested token not in the results map (the
second loop). -/
def missedTokens (cache : List (String × Price)) (ttl now : Nat)
    (tokens : List Token) (currency : String) : List Token :=
  (cacheScan cache ttl now tokens currency).2 ++
    tokens.filter
      (fun t => (alookup (cachedResults cache ttl now tokens currency) t).isNone)

/-- `Service.cacheFetchedPrices`: write every fetched price, unchanged, into
the cache under `address:currency`. -/
def cacheFetchedPrices (cache : List (String × Price))
    (fetched : List (Token × Price)) (currency : String) :
    List (String × Price) :=
  fetched.foldl (fun c tp => aset c (cacheKey tp.1.address currency) tp.2) cache

/-- The Go `for t, p := range fetched { results[t] = p }` merge. -/
def mergeFetched (results fetched : List (Token × Price)) :
    List (Token × Price) :=
  fetched.foldl (fun r tp => aset r tp.1 tp.2) results

/-- One run of the cache-aside `Service.GetPrices`: the returned price map
(`none` on error), the cache state after the call, and the batches passed to
the primary and fallback providers. -/
structure GetPricesRun where
  result : Option (List (Token × Price))
  cache : List (String × Price)
  primaryCalls : List (List Token)
  fallbackCalls : List (List Token)
deriving DecidableEq, Repr

/-- The cache-aside `Service.GetPrices` (`package price`): empty token list is
a no-op; cache hits are partitioned by the TTL freshness check; when tokens
are missed, the rate limiter gates one primary-provider call over the whole
missed batch, any primary failure (or rate-limit denial) triggers one
fallback call with the same batch, a fallback failure fails the whole call,
and on success the fetched prices are merged over the cache hits and written
back to the cache. The rate limiter and the two providers are explicit
oracles: `allow` is the limiter's verdict, and each provider maps a requested
batch to `some` fetched list or `none` (error). -/
def GetPrices (cache : List (String × Price)) (ttl now : Nat)
    (tokens : List Token) (currency : String) (allow : Bool)
    (primary fallback : List Token → Option (List (Token × Price))) :
    GetPricesRun :=
  if tokens.isEmpty then ⟨some [], cache, [], []⟩
  else
    let results := cachedResults cache ttl now tokens currency
    let missed := missedTokens cache ttl now tokens currency
    if missed.isEmpty then ⟨some results, cache, [], []⟩
    else
      if allow then
        match primary missed with
        | some fetched =>
          ⟨some (mergeFetched results fetched),
            cacheFetchedPrices cache fetched currency, [missed], []⟩
        | none =>
          match fallback missed with
          | some fetched =>
            ⟨some (mergeFetched results fetched),
              cacheFetchedPrices cache fetched currency, [missed], [missed]⟩
          | none => ⟨none, cache, [missed], [missed]⟩
      else
        match fallback missed with
        | some fetched =>
          ⟨some (mergeFetched results fetched),
            cacheFetchedPrices cache fetched currency, [], [missed]⟩
        | none => ⟨none, cache, [], [missed]⟩

/-- The `lastUpdated` selection of `PriceRepository.fetchPricesBatch`
(`internal/adapters/coingecko/price.go`): the API-reported `last_updated_at`
timestamp when the response carries one, the current time otherwise. -/
def fetchPricesBatchLastUpdated (now : Nat) (lastUpdatedAt : Option Nat) : Nat :=
  match lastUpdatedAt with
  | some ts => ts
  | none => now

/-- C4 counterexample: the write-back stores each fetched price unchanged —
with `now = 100`, a price the provider reports with `lastUpdated = 5` is
cached with `lastUpdated = 5`, not `100`; and the coingecko adapter itself
sets `lastUpdated` to the API-reported `last_updated_at` (5) when present,
not the current time. So "lastUpdated set to the current time (not the
timestamp the provider reported)" is false at this input. -/
theorem C4_counterexample :
    (GetPrices [] 50 100 [⟨"tok", "Tok", "TOK", "0xa", 18⟩] "usd" true
        (fun _ => some [(⟨"tok", "Tok", "TOK", "0xa", 18⟩, ⟨none, some 1, "USD", 5⟩)])
        (fun _ => none)).cache =
      [("0xa:usd", ⟨none, some 1, "USD", 5⟩)] ∧
      (5 : Nat) ≠ 100 ∧
      fetchPricesBatchLastUpdated 100 (some 5) = 5 := by
  refine ⟨by decide, by decide, rfl⟩

theorem cacheFetchedPrices_cons (cache : List (String × Price)) (tp : Token × Price)
    (rest : List (Token × Price)) (currency : String) :
    cacheFetchedPrices cache (tp :: rest) currency =
      cacheFetchedPrices (aset cache (cacheKey tp.1.address currency) tp.2) rest
        currency := rfl

theorem cacheFetchedPrices_lookup_notmem (fetched : List (Token × Price))
    (cache : List (String × Price)) (currency k : String)
    (hk : k ∉ fetched.map (fun tp => cacheKey tp.1.address currency)) :
    alookup (cacheFetchedPrices cache fetched currency) k = alookup cache k := by
  induction fetched generalizing cache with
  | nil => rfl
  | cons tp rest ih =>
    have hk1 : cacheKey tp.1.address currency ≠ k := by
      intro h
      exact hk (by simp [← h])
    have hk2 : k ∉ rest.map (fun tp => cacheKey tp.1.address currency) := by
      intro h
      exact hk (by simp [h])
    rw [cacheFetchedPrices_cons, ih _ hk2, alookup_aset_other _ _ _ _ hk1]

theorem cacheFetchedPrices_lookup_mem (fetched : List (Token × Price))
    (cache : List (String × Price)) (currency : String)
    (hnd : (fetched.map (fun tp => cacheKey tp.1.address currency)).Nodup) :
    ∀ tp ∈ fetched,
      alookup (cacheFetchedPrices cache fetched currency)
        (cacheKey tp.1.address currency) = some tp.2 := by
  induction fetched generalizing cache with
  | nil => intro tp h; cases h
  | cons hd rest ih =>
    intro tp hmem
    have hnd' : (rest.map (fun tp => cacheKey tp.1.address currency)).Nodup :=
      (List.nodup_cons.mp (by simpa using hnd)).2
    have hnotin : cacheKey hd.1.address currency ∉
        rest.map (fun tp => cacheKey tp.1.address currency) :=
      (List.nodup_cons.mp (by simpa using hnd)).1
    rcases List.mem_cons.mp hmem with h | h
    · subst h
      rw [cacheFetchedPrices_cons,
        cacheFetchedPrices_lookup_notmem rest _ _ _ hnotin, alookup_aset_self]
    · rw [cacheFetchedPrices_cons]
      exact ih _ hnd' tp h

theorem missedTokens_nil_tokens (cache : List (String × Price)) (ttl now : Nat)
    (currency : String) : missedTokens cache ttl now [] currency = [] := rfl

/-- C4 (amended): after a successful provider fetch (primary or fallback) in
the cache-aside `GetPrices`, every returned price is written back to the
cache keyed by `address:currency` *unchanged* — in particular its
`lastUpdated` stays whatever the provider set (the coingecko adapter uses the
API's `last_updated_at` when present and the current time otherwise) —
regardless of which provider produced it. -/
theorem C4_writeback (cache : List (String × Price)) (ttl now : Nat)
    (tokens : List Token) (currency : String) (allow : Bool)
    (primary fallback : List Token → Option (List (Token × Price)))
    (fetched : List (Token × Price))
    (hnd : (fetched.map (fun tp => cacheKey tp.1.address currency)).Nodup)
    (hne : missedTokens cache ttl now tokens currency ≠ [])
    (hsucc : (allow = true ∧
        primary (missedTokens cache ttl now tokens currency) = some fetched) ∨
      ((allow = false ∨
          primary (missedTokens cache ttl now tokens currency) = none) ∧
        fallback (missedTokens cache ttl now tokens currency) = some fetched)) :
    (GetPrices cache ttl now tokens currency allow primary fallback).cache =
        cacheFetchedPrices cache fetched currency ∧
      ∀ tp ∈ fetched,
        alookup (GetPrices cache ttl now tokens currency allow primary fallback).cache
          (cacheKey tp.1.address currency) = some tp.2 := by
  have hemp : tokens.isEmpty = false := by
    cases htok : tokens with
    | nil =>
      subst htok
      exact absurd (missedTokens_nil_tokens cache ttl now currency) hne
    | cons a l => rfl
  have hm : (missedTokens cache ttl now tokens currency).isEmpty = false := by
    cases hmt : missedTokens cache ttl now tokens currency with
    | nil => exact absurd hmt hne
    | cons a l => rfl
  have hcache : (GetPrices cache ttl now tokens currency allow primary fallback).cache =
      cacheFetchedPrices cache fetched currency := by
    unfold GetPrices
    simp only [hemp, Bool.false_eq_true, if_false, hm]
    rcases hsucc with ⟨ha, hp⟩ | ⟨hpf, hf⟩
    · subst ha
      simp only [if_true, hp]
    · by_cases ha : allow = true
      · subst ha
        have hp : primary (missedTokens cache ttl now tokens currency) = none := by
          rcases hpf with h | h
          · cases h
          · exact h
        simp only [if_true, hp, hf]
      · simp only [Bool.not_eq_true] at ha
        simp only [ha, Bool.false_eq_true, if_false, hf]
  refine ⟨hcache, fun tp h => ?_⟩
  rw [hcache]
  exact cacheFetchedPrices_lookup_mem fetched cache currency hnd tp h

/-- C4 witness: `C4_writeback` at a concrete input — one missed token whose
price (with provider `lastUpdated = 7`) comes from the fallback provider
after the primary fails. -/
theorem C4_writeback_witness :
    (GetPrices [] 50 100 [⟨"tok", "Tok", "TOK", "0xa", 18⟩] "usd" true
        (fun _ => none)
        (fun _ => some [(⟨"tok", "Tok", "TOK", "0xa", 18⟩, ⟨none, some 2, "USD", 7⟩)])).cache =
      cacheFetchedPrices []
        [(⟨"tok", "Tok", "TOK", "0xa", 18⟩, ⟨none, some 2, "USD", 7⟩)] "usd" ∧
      ∀ tp ∈ [((⟨"tok", "Tok", "TOK", "0xa", 18⟩ : Token),
          (⟨none, some 2, "USD", 7⟩ : Price))],
        alookup (GetPrices [] 50 100 [⟨"tok", "Tok", "TOK", "0xa", 18⟩] "usd" true
            (fun _ => none)
            (fun _ => some [(⟨"tok", "Tok", "TOK", "0xa", 18⟩, ⟨none, some 2, "USD", 7⟩)])).cache
          (cacheKey tp.1.address "usd") = some tp.2 :=
  C4_writeback [] 50 100 [⟨"tok", "Tok", "TOK", "0xa", 18⟩] "usd" true
    (fun _ => none)
    (fun _ => some [(⟨"tok", "Tok", "TOK", "0xa", 18⟩, ⟨none, some 2, "USD", 7⟩)])
    [(⟨"tok", "Tok", "TOK", "0xa", 18⟩, ⟨none, some 2, "USD", 7⟩)]
    (by decide) (by decide) (Or.inr ⟨Or.inr rfl, rfl⟩)

/-- C3: in the cache-aside `GetPrices`, when tokens are missed and the primary
call fails (`none`) or the rate limiter denies it, the fallback provider is
called exactly once with the same missed batch; if the fallback also fails,
the whole call returns an error (`result = none`) with no partial result —
the fresh cache-hit prices collected earlier in the call are discarded — and
the cache is left unchanged. -/
theorem C3_getPrices_allOrNothing (cache : List (String × Price)) (ttl now : Nat)
    (tokens : List Token) (currency : String) (allow : Bool)
    (primary fallback : List Token → Option (List (Token × Price)))
    (hne : missedTokens cache ttl now tokens currency ≠ [])
    (hprim : allow = false ∨
      primary (missedTokens cache ttl now tokens currency) = none)
    (hfb : fallback (missedTokens cache ttl now tokens currency) = none) :
    GetPrices cache ttl now tokens currency allow primary fallback =
      ⟨none, cache,
        if allow then [missedTokens cache ttl now tokens currency] else [],
        [missedTokens cache ttl now tokens currency]⟩ := by
  have hemp : tokens.isEmpty = false := by
    cases htok : tokens with
    | nil =>
      subst htok
      exact absurd (missedTokens_nil_tokens cache ttl now currency) hne
    | cons a l => rfl
  have hm : (missedTokens cache ttl now tokens currency).isEmpty = false := by
    cases hmt : missedTokens cache ttl now tokens currency with
    | nil => exact absurd hmt hne
    | cons a l => rfl
  unfold GetPrices
  simp only [hemp, Bool.false_eq_true, if_false, hm]
  rcases hprim with ha | hp
  · simp only [ha, Bool.false_eq_true, if_false, hfb]
  · by_cases ha : allow = true
    · simp only [ha, if_true, hp, hfb]
    · simp only [Bool.not_eq_true] at ha
      simp only [ha, Bool.false_eq_true, if_false, hfb]

/-- C3 witness: `C3_getPrices_allOrNothing` at a concrete input — a cache
holding a fresh quote for one token, a second token missed, both providers
failing: the whole call errors, the fallback got the missed batch once, and
the fresh cache hit is discarded. -/
theorem C3_getPrices_allOrNothing_witness :
    GetPrices [("0xa:usd", ⟨none, some 3, "USD", 95⟩)] 50 100
        [⟨"a", "A", "A", "0xa", 18⟩, ⟨"b", "B", "B", "0xb", 18⟩] "usd" true
        (fun _ => none) (fun _ => none) =
      ⟨none, [("0xa:usd", ⟨none, some 3, "USD", 95⟩)],
        [missedTokens [("0xa:usd", ⟨none, some 3, "USD", 95⟩)] 50 100
          [⟨"a", "A", "A", "0xa", 18⟩, ⟨"b", "B", "B", "0xb", 18⟩] "usd"],
        [missedTokens [("0xa:usd", ⟨none, some 3, "USD", 95⟩)] 50 100
          [⟨"a", "A", "A", "0xa", 18⟩, ⟨"b", "B", "B", "0xb", 18⟩] "usd"]⟩ := by
  have h := C3_getPrices_allOrNothing
    [("0xa:usd", ⟨none, some 3, "USD", 95⟩)] 50 100
    [⟨"a", "A", "A", "0xa", 18⟩, ⟨"b", "B", "B", "0xb", 18⟩] "usd" true
    (fun _ => none) (fun _ => none) (by decide) (Or.inr rfl) rfl
  simpa using h

/-- Every requested token has a cache entry under its `address:currency` key
that is within the TTL at time `now` — the claim's "while the cached prices
are within the TTL" proviso, in executable form. -/
def allFresh (cache : List (String × Price)) (ttl now : Nat) (tokens : List Token)
    (currency : String) : Bool :=
  tokens.all (fun t =>
    match alookup cache (cacheKey t.address currency) with
    | some p => decide (now - p.lastUpdated < ttl)
    | none => false)

theorem filter_cacheKey_single (currency : String) (tokens : List Token) :
    ∀ t : Token, (tokens.map (fun t => cacheKey t.address currency)).Nodup →
      t ∈ tokens →
      tokens.filter
        (fun t' => cacheKey t'.address currency == cacheKey t.address currency) =
        [t] := by
  induction tokens with
  | nil => intro t _ ht; cases ht
  | cons a rest ih =>
    intro t hnd ht
    rw [List.map_cons, List.nodup_cons] at hnd
    rcases List.mem_cons.mp ht with h | hr
    · subst h
      rw [List.filter_cons]
      have hcond : (cacheKey t.address currency == cacheKey t.address currency) = true := by
        simp
      rw [hcond]
      simp only [if_true]
      have hrest : rest.filter
          (fun t' => cacheKey t'.address currency == cacheKey t.address currency) = [] := by
        apply List.filter_eq_nil_iff.mpr
        intro x hx
        simp only [beq_iff_eq]
        intro hfx
        exact hnd.1 (hfx ▸ List.mem_map_of_mem _ hx)
      rw [hrest]
    · have hne : (cacheKey a.address currency == cacheKey t.address currency) = false := by
        have hmem : cacheKey t.address currency ∈
            rest.map (fun t => cacheKey t.address currency) :=
          List.mem_map_of_mem _ hr
        simp only [beq_eq_false_iff_ne, ne_eq]
        intro h
        exact hnd.1 (h ▸ hmem)
      rw [List.filter_cons, hne]
      simp only [Bool.false_eq_true, if_false]
      exact ih t hnd.2 hr

theorem tokenForKey_self (tokens : List Token) (currency : String) (t : Token)
    (hnd : (tokens.map (fun t => cacheKey t.address currency)).Nodup)
    (ht : t ∈ tokens) :
    tokenForKey tokens currency (cacheKey t.address currency) = some t := by
  unfold tokenForKey
  rw [filter_cacheKey_single currency tokens t hnd ht]
  rfl

theorem cacheScanFold_missed_all_fresh (cache : List (String × Price)) (ttl now : Nat)
    (tokens : List Token) (currency : String) :
    ∀ (ks : List String) (acc : List (Token × Price) × List Token),
      (∀ k ∈ ks, ∀ p, alookup cache k = some p → now - p.lastUpdated < ttl) →
      (ks.foldl (cacheScanStep cache ttl now tokens currency) acc).2 = acc.2 := by
  intro ks
  induction ks with
  | nil => intro acc _; rfl
  | cons k rest ih =>
    intro acc hfr
    rw [List.foldl_cons, ih _ (fun k' h => hfr k' (List.mem_cons_of_mem _ h))]
    unfold cacheScanStep
    cases hc : alookup cache k with
    | none => rfl
    | some p =>
      cases ht : tokenForKey tokens currency k with
      | none => rfl
      | some t =>
        dsimp only
        rw [if_pos (hfr k (List.mem_cons_self _ _) p hc)]

theorem cacheScanFold_result_mono (cache : List (String × Price)) (ttl now : Nat)
    (tokens : List Token) (currency : String) :
    ∀ (ks : List String) (acc : List (Token × Price) × List Token) (t : Token),
      (alookup acc.1 t).isSome →
      (alookup (ks.foldl (cacheScanStep cache ttl now tokens currency) acc).1 t).isSome := by
  intro ks
  induction ks with
  | nil => intro acc t h; exact h
  | cons k rest ih =>
    intro acc t h
    rw [List.foldl_cons]
    apply ih
    unfold cacheScanStep
    cases hc : alookup cache k with
    | none => exact h
    | some p =>
      cases ht : tokenForKey tokens currency k with
      | none => exact h
      | some t' =>
        dsimp only
        by_cases hfr : now - p.lastUpdated < ttl
        · rw [if_pos hfr]
          by_cases htt : t' = t
          · subst htt
            simp [alookup_aset_self]
          · simpa [alookup_aset_other acc.1 t' t p htt] using h
        · rw [if_neg hfr]
          exact h

theorem cacheScanFold_result_mem (cache : List (String × Price)) (ttl now : Nat)
    (tokens : List Token) (currency : String) :
    ∀ (ks : List String) (acc : List (Token × Price) × List Token) (t : Token),
      (∃ k ∈ ks, ∃ p, tokenForKey tokens currency k = some t ∧
        alookup cache k = some p ∧ now - p.lastUpdated < ttl) →
      (alookup (ks.foldl (cacheScanStep cache ttl now tokens currency) acc).1 t).isSome := by
  intro ks
  induction ks with
  | nil =>
    intro acc t hex
    rcases hex with ⟨k, hk, _⟩
    exact absurd hk (List.not_mem_nil k)
  | cons k0 rest ih =>
    intro acc t hex
    rcases hex with ⟨k, hk, p, htk, hc, hfr⟩
    rw [List.foldl_cons]
    rcases List.mem_cons.mp hk with h | hkr
    · subst h
      apply cacheScanFold_result_mono
      unfold cacheScanStep
      simp only [hc, htk]
      rw [if_pos hfr]
      simp [alookup_aset_self]
    · exact ih _ t ⟨k, hkr, p, htk, hc, hfr⟩

theorem missedTokens_eq_nil (cache : List (String × Price)) (ttl now : Nat)
    (tokens : List Token) (currency : String)
    (hnd : (tokens.map (fun t => cacheKey t.address currency)).Nodup)
    (hf : allFresh cache ttl now tokens currency = true) :
    missedTokens cache ttl now tokens currency = [] := by
  have hfr : ∀ k ∈ foundKeys cache tokens currency,
      ∀ p, alookup cache k = some p → now - p.lastUpdated < ttl := by
    intro k hkf p hp
    have hk1 : k ∈ tokens.map (fun t => cacheKey t.address currency) :=
      List.mem_dedup.mp (List.mem_filter.mp hkf).1
    rcases List.mem_map.mp hk1 with ⟨t, htmem, hkey⟩
    have hall := List.all_eq_true.mp hf t htmem
    rw [hkey, hp] at hall
    simpa using hall
  have h2 : (cacheScan cache ttl now tokens currency).2 = [] := by
    unfold cacheScan
    exact cacheScanFold_missed_all_fresh cache ttl now tokens currency _ ([], []) hfr
  have h3 : ∀ t ∈ tokens,
      (alookup (cachedResults cache ttl now tokens currency) t).isSome := by
    intro t ht
    have hkmem : cacheKey t.address currency ∈
        tokens.map (fun t => cacheKey t.address currency) :=
      List.mem_map_of_mem _ ht
    have hall := List.all_eq_true.mp hf t ht
    have hsome : (alookup cache (cacheKey t.address currency)).isSome := by
      cases halo : alookup cache (cacheKey t.address currency) with
      | none => rw [halo] at hall; simp at hall
      | some p => rfl
    have hfk : cacheKey t.address currency ∈ foundKeys cache tokens currency :=
      List.mem_filter.mpr ⟨List.mem_dedup.mpr hkmem, hsome⟩
    rcases Option.isSome_iff_exists.mp hsome with ⟨p, hp⟩
    unfold cachedResults cacheScan
    exact cacheScanFold_result_mem cache ttl now tokens currency _ ([], []) t
      ⟨cacheKey t.address currency, hfk, p,
        tokenForKey_self tokens currency t hnd ht, hp, hfr _ hfk p hp⟩
  unfold missedTokens
  rw [h2]
  simp only [List.nil_append]
  apply List.filter_eq_nil_iff.mpr
  intro t ht
  have hs := h3 t ht
  cases halo : alookup (cachedResults cache ttl now tokens currency) t with
  | none => rw [halo] at hs; simp at hs
  | some p => simp [halo]

theorem getPrices_fresh_no_upstream (cache : List (String × Price)) (ttl now : Nat)
    (tokens : List Token) (currency : String) (allow : Bool)
    (primary fallback : List Token → Option (List (Token × Price)))
    (hnd : (tokens.map (fun t => cacheKey t.address currency)).Nodup)
    (hf : allFresh cache ttl now tokens currency = true) :
    GetPrices cache ttl now tokens currency allow primary fallback =
      ⟨some (cachedResults cache ttl now tokens currency), cache, [], []⟩ := by
  cases tokens with
  | nil => rfl
  | cons a l =>
    have hemp : (a :: l).isEmpty = false := rfl
    have hm := missedTokens_eq_nil cache ttl now (a :: l) currency hnd hf
    unfold GetPrices
    simp only [hemp, Bool.false_eq_true, if_false, hm, List.isEmpty_nil, if_true]

theorem getPrices_calls_le_one (cache : List (String × Price)) (ttl now : Nat)
    (tokens : List Token) (currency : String) (allow : Bool)
    (primary fallback : List Token → Option (List (Token × Price))) :
    (GetPrices cache ttl now tokens currency allow primary fallback).primaryCalls.length ≤ 1 ∧
      (GetPrices cache ttl now tokens currency allow primary fallback).fallbackCalls.length ≤ 1 := by
  unfold GetPrices
  by_cases h1 : tokens.isEmpty = true
  · simp [h1]
  · simp only [Bool.not_eq_true] at h1
    simp only [h1, Bool.false_eq_true, if_false]
    by_cases h2 : (missedTokens cache ttl now tokens currency).isEmpty = true
    · simp [h2]
    · simp only [Bool.not_eq_true] at h2
      simp only [h2, Bool.false_eq_true, if_false]
      by_cases h3 : allow = true
      · simp only [h3, if_true]
        cases primary (missedTokens cache ttl now tokens currency) with
        | some f => simp
        | none =>
          cases fallback (missedTokens cache ttl now tokens currency) with
          | some f => simp
          | none => simp
      · simp only [Bool.not_eq_true] at h3
        simp only [h3, Bool.false_eq_true, if_false]
        cases fallback (missedTokens cache ttl now tokens currency) with
        | some f => simp
        | none => simp

/-- C5 counterexample: with an empty cache, a failing primary and a succeeding
fallback, the first cache-aside `GetPrices` call alone issues two upstream
provider calls (primary, then fallback with the same batch); the second call
is served from the cache (zero calls), so the two calls in immediate
succession issue 2 upstream provider calls in total, refuting "at most one
upstream provider call in total". -/
theorem C5_counterexample :
    (GetPrices [] 50 100 [⟨"tok", "Tok", "TOK", "0xa", 18⟩] "usd" true
          (fun _ => none)
          (fun _ => some [(⟨"tok", "Tok", "TOK", "0xa", 18⟩,
            ⟨none, some 1, "usd", 100⟩)])).primaryCalls.length +
        (GetPrices [] 50 100 [⟨"tok", "Tok", "TOK", "0xa", 18⟩] "usd" true
          (fun _ => none)
          (fun _ => some [(⟨"tok", "Tok", "TOK", "0xa", 18⟩,
            ⟨none, some 1, "usd", 100⟩)])).fallbackCalls.length = 2 ∧
      (GetPrices
          (GetPrices [] 50 100 [⟨"tok", "Tok", "TOK", "0xa", 18⟩] "usd" true
            (fun _ => none)
            (fun _ => some [(⟨"tok", "Tok", "TOK", "0xa", 18⟩,
              ⟨none, some 1, "usd", 100⟩)])).cache
          50 110 [⟨"tok", "Tok", "TOK", "0xa", 18⟩] "usd" true
          (fun _ => none)
          (fun _ => some [(⟨"tok", "Tok", "TOK", "0xa", 18⟩,
            ⟨none, some 1, "usd", 100⟩)])).primaryCalls.length +
        (GetPrices
          (GetPrices [] 50 100 [⟨"tok", "Tok", "TOK", "0xa", 18⟩] "usd" true
            (fun _ => none)
            (fun _ => some [(⟨"tok", "Tok", "TOK", "0xa", 18⟩,
              ⟨none, some 1, "usd", 100⟩)])).cache
          50 110 [⟨"tok", "Tok", "TOK", "0xa", 18⟩] "usd" true
          (fun _ => none)
          (fun _ => some [(⟨"tok", "Tok", "TOK", "0xa", 18⟩,
            ⟨none, some 1, "usd", 100⟩)])).fallbackCalls.length = 0 ∧
      ¬ (2 + 0 ≤ 1) := by
  refine ⟨by decide, by decide, by decide⟩

/-- C5 (amended): calling the cache-aside `GetPrices` twice in immediate
succession with the same token list and currency issues at most one upstream
provider call in total **provided the first call did not need the fallback
provider** (one primary fetch at most); the second call is served entirely
from the cache — zero upstream calls — while the cached prices are within the
TTL at the second call's time (and the tokens' cache keys are distinct). -/
theorem C5_cacheAside_idempotence (cache : List (String × Price)) (ttl now1 now2 : Nat)
    (tokens : List Token) (currency : String) (allow1 allow2 : Bool)
    (prim1 fb1 prim2 fb2 : List Token → Option (List (Token × Price)))
    (hnd : (tokens.map (fun t => cacheKey t.address currency)).Nodup)
    (hfb1 : (GetPrices cache ttl now1 tokens currency allow1 prim1 fb1).fallbackCalls = [])
    (hfresh : allFresh (GetPrices cache ttl now1 tokens currency allow1 prim1 fb1).cache
        ttl now2 tokens currency = true) :
    (GetPrices (GetPrices cache ttl now1 tokens currency allow1 prim1 fb1).cache
        ttl now2 tokens currency allow2 prim2 fb2).primaryCalls = [] ∧
      (GetPrices (GetPrices cache ttl now1 tokens currency allow1 prim1 fb1).cache
        ttl now2 tokens currency allow2 prim2 fb2).fallbackCalls = [] ∧
      (GetPrices cache ttl now1 tokens currency allow1 prim1 fb1).primaryCalls.length +
        (GetPrices cache ttl now1 tokens currency allow1 prim1 fb1).fallbackCalls.length +
        ((GetPrices (GetPrices cache ttl now1 tokens currency allow1 prim1 fb1).cache
          ttl now2 tokens currency allow2 prim2 fb2).primaryCalls.length +
         (GetPrices (GetPrices cache ttl now1 tokens currency allow1 prim1 fb1).cache
          ttl now2 tokens currency allow2 prim2 fb2).fallbackCalls.length) ≤ 1 := by
  have h2 := getPrices_fresh_no_upstream
    (GetPrices cache ttl now1 tokens currency allow1 prim1 fb1).cache ttl now2
    tokens currency allow2 prim2 fb2 hnd hfresh
  have h1 := (getPrices_calls_le_one cache ttl now1 tokens currency allow1 prim1 fb1).1
  rw [h2, hfb1]
  refine ⟨rfl, rfl, ?_⟩
  simpa using h1

/-- C5 witness: `C5_cacheAside_idempotence` at a concrete input — one token,
empty cache, a succeeding primary on the first call at time 100, second call
at time 120 with TTL 50: one upstream call in total. -/
theorem C5_cacheAside_idempotence_witness :
    (GetPrices
        (GetPrices [] 50 100 [⟨"tok", "Tok", "TOK", "0xa", 18⟩] "usd" true
          (fun _ => some [(⟨"tok", "Tok", "TOK", "0xa", 18⟩, ⟨none, some 1, "usd", 100⟩)])
          (fun _ => none)).cache
        50 120 [⟨"tok", "Tok", "TOK", "0xa", 18⟩] "usd" true
        (fun _ => some [(⟨"tok", "Tok", "TOK", "0xa", 18⟩, ⟨none, some 1, "usd", 100⟩)])
        (fun _ => none)).primaryCalls = [] ∧
      (GetPrices
        (GetPrices [] 50 100 [⟨"tok", "Tok", "TOK", "0xa", 18⟩] "usd" true
          (fun _ => some [(⟨"tok", "Tok", "TOK", "0xa", 18⟩, ⟨none, some 1, "usd", 100⟩)])
          (fun _ => none)).cache
        50 120 [⟨"tok", "Tok", "TOK", "0xa", 18⟩] "usd" true
        (fun _ => some [(⟨"tok", "Tok", "TOK", "0xa", 18⟩, ⟨none, some 1, "usd", 100⟩)])
        (fun _ => none)).fallbackCalls = [] ∧
      (GetPrices [] 50 100 [⟨"tok", "Tok", "TOK", "0xa", 18⟩] "usd" true
          (fun _ => some [(⟨"tok", "Tok", "TOK", "0xa", 18⟩, ⟨none, some 1, "usd", 100⟩)])
          (fun _ => none)).primaryCalls.length +
        (GetPrices [] 50 100 [⟨"tok", "Tok", "TOK", "0xa", 18⟩] "usd" true
          (fun _ => some [(⟨"tok", "Tok", "TOK", "0xa", 18⟩, ⟨none, some 1, "usd", 100⟩)])
          (fun _ => none)).fallbackCalls.length +
        ((GetPrices
          (GetPrices [] 50 100 [⟨"tok", "Tok", "TOK", "0xa", 18⟩] "usd" true
            (fun _ => some [(⟨"tok", "Tok", "TOK", "0xa", 18⟩, ⟨none, some 1, "usd", 100⟩)])
            (fun _ => none)).cache
          50 120 [⟨"tok", "Tok", "TOK", "0xa", 18⟩] "usd" true
          (fun _ => some [(⟨"tok", "Tok", "TOK", "0xa", 18⟩, ⟨none, some 1, "usd", 100⟩)])
          (fun _ => none)).primaryCalls.length +
         (GetPrices
          (GetPrices [] 50 100 [⟨"tok", "Tok", "TOK", "0xa", 18⟩] "usd" true
            (fun _ => some [(⟨"tok", "Tok", "TOK", "0xa", 18⟩, ⟨none, some 1, "usd", 100⟩)])
            (fun _ => none)).cache
          50 120 [⟨"tok", "Tok", "TOK", "0xa", 18⟩] "usd" true
          (fun _ => some [(⟨"tok", "Tok", "TOK", "0xa", 18⟩, ⟨none, some 1, "usd", 100⟩)])
          (fun _ => none)).fallbackCalls.length) ≤ 1 :=
  C5_cacheAside_idempotence [] 50 100 120 [⟨"tok", "Tok", "TOK", "0xa", 18⟩] "usd"
    true true
    (fun _ => some [(⟨"tok", "Tok", "TOK", "0xa", 18⟩, ⟨none, some 1, "usd", 100⟩)])
    (fun _ => none)
    (fun _ => some [(⟨"tok", "Tok", "TOK", "0xa", 18⟩, ⟨none, some 1, "usd", 100⟩)])
    (fun _ => none)
    (by decide) (by decide) (by decide)

/-- The `j`-th fixed-size batch of the token list:
`tokens[j*maxBatchSize : j*maxBatchSize + maxBatchSize]`. -/
def batchAt (tokens : List Token) (step j : Nat) : List Token :=
  (tokens.drop (j * step)).take step

/-- One fueled execution of the batching loop of
`RateLimitedService.GetPrices` (`package price`): `i` is the Go loop index,
`iter` counts iterations (the rate limiter is asked once per iteration,
modelled by `allow iter`), `acc` is the merged result map. The outer `Option`
is `none` when the fuel runs out (the loop has not terminated); the inner
`Option` is `none` when an admitted batch's provider call failed
(`return nil, err`). A denied batch contributes nothing and the loop simply
advances. The field `maxBatchSize` is used as-is — no constructor or guard
adjusts it. -/
def rlGetPricesAux (allow : Nat → Bool)
    (provider : List Token → Option (List (Token × Price)))
    (tokens : List Token) (maxBatchSize : Nat) :
    Nat → Nat → Nat → List (Token × Price) → Option (Option (List (Token × Price)))
  | 0, _, _, _ => none
  | fuel + 1, i, iter, acc =>
    if i < tokens.length then
      if allow iter then
        match provider ((tokens.drop i).take maxBatchSize) with
        | none => some none
        | some fetched =>
          rlGetPricesAux allow provider tokens maxBatchSize fuel (i + maxBatchSize)
            (iter + 1) (mergeFetched acc fetched)
      else
        rlGetPricesAux allow provider tokens maxBatchSize fuel (i + maxBatchSize)
          (iter + 1) acc
    else some (some acc)

/-- `RateLimitedService.GetPrices`, run with fuel `tokens.length + 1` — enough
for the loop to finish whenever `maxBatchSize ≥ 1`. -/
def RateLimitedGetPrices (allow : Nat → Bool)
    (provider : List Token → Option (List (Token × Price)))
    (tokens : List Token) (maxBatchSize : Nat) :
    Option (Option (List (Token × Price))) :=
  rlGetPricesAux allow provider tokens maxBatchSize (tokens.length + 1) 0 0 []

theorem mem_batchAt (tokens : List Token) (step j : Nat) (t : Token)
    (h : t ∈ batchAt tokens step j) :
    ∃ n, n < step ∧ ∃ (hn : j * step + n < tokens.length), tokens[j * step + n] = t := by
  unfold batchAt at h
  rcases List.mem_iff_getElem.mp h with ⟨n, hlen, hget⟩
  have hlen2 : n < step := lt_of_lt_of_le hlen (by
    rw [List.length_take]
    exact min_le_left _ _)
  have hlen3 : n < (tokens.drop (j * step)).length := lt_of_lt_of_le hlen (by
    rw [List.length_take]
    exact min_le_right _ _)
  have hlen4 : j * step + n < tokens.length := by
    rw [List.length_drop] at hlen3
    omega
  refine ⟨n, hlen2, hlen4, ?_⟩
  rw [List.getElem_take, List.getElem_drop] at hget
  exact hget

theorem batchAt_inj (tokens : List Token) (step : Nat) (hstep : 1 ≤ step)
    (hnd : tokens.Nodup) (t : Token) (j j' : Nat)
    (h1 : t ∈ batchAt tokens step j) (h2 : t ∈ batchAt tokens step j') : j = j' := by
  rcases mem_batchAt tokens step j t h1 with ⟨n, hn, hlt, hget⟩
  rcases mem_batchAt tokens step j' t h2 with ⟨n', hn', hlt', hget'⟩
  have heq : tokens[j * step + n] = tokens[j' * step + n'] := by
    rw [hget, hget']
  have hidx : j * step + n = j' * step + n' := (List.Nodup.getElem_inj_iff hnd).mp heq
  have h0 : 0 < step := hstep
  have hidx' : step * j + n = step * j' + n' := by
    rw [mul_comm step j, mul_comm step j']
    exact hidx
  calc j = (step * j + n) / step := by
        rw [Nat.mul_add_div h0, Nat.div_eq_of_lt hn, Nat.add_zero]
    _ = (step * j' + n') / step := by rw [hidx']
    _ = j' := by rw [Nat.mul_add_div h0, Nat.div_eq_of_lt hn', Nat.add_zero]

theorem mergeFetched_cons (acc : List (Token × Price)) (tp : Token × Price)
    (rest : List (Token × Price)) :
    mergeFetched acc (tp :: rest) = mergeFetched (aset acc tp.1 tp.2) rest := rfl

theorem mergeFetched_lookup_isSome (fetched : List (Token × Price)) :
    ∀ (acc : List (Token × Price)) (t : Token),
      (alookup (mergeFetched acc fetched) t).isSome = true →
      (alookup acc t).isSome = true ∨ ∃ p, (t, p) ∈ fetched := by
  induction fetched with
  | nil => intro acc t h; exact Or.inl h
  | cons tp rest ih =>
    intro acc t h
    rw [mergeFetched_cons] at h
    rcases ih _ t h with h1 | ⟨p, hp⟩
    · by_cases htt : tp.1 = t
      · subst htt
        refine Or.inr ⟨tp.2, ?_⟩
        rw [Prod.mk.eta]
        exact List.mem_cons_self _ _
      · rw [alookup_aset_other acc tp.1 t tp.2 htt] at h1
        exact Or.inl h1
    · exact Or.inr ⟨p, List.mem_cons_of_mem _ hp⟩

theorem rlAux_terminates (allow : Nat → Bool)
    (provider : List Token → Option (List (Token × Price)))
    (tokens : List Token) (step : Nat) (hstep : 1 ≤ step) :
    ∀ (fuel i iter : Nat) (acc : List (Token × Price)),
      tokens.length - i < fuel →
      (rlGetPricesAux allow provider tokens step fuel i iter acc).isSome = true := by
  intro fuel
  induction fuel with
  | zero => intro i iter acc h; omega
  | succ n ih =>
    intro i iter acc h
    unfold rlGetPricesAux
    by_cases hi : i < tokens.length
    · rw [if_pos hi]
      by_cases ha : allow iter = true
      · rw [if_pos ha]
        cases provider ((tokens.drop i).take step) with
        | none => rfl
        | some fetched =>
          apply ih
          omega
      · rw [if_neg (by simpa using ha)]
        apply ih
        omega
    · rw [if_neg hi]
      rfl

theorem rlAux_zero_step_diverges (allow : Nat → Bool)
    (provider : List Token → Option (List (Token × Price)))
    (tokens : List Token) (hne : tokens ≠ []) (hprov : provider [] = some []) :
    ∀ (fuel iter : Nat) (acc : List (Token × Price)),
      rlGetPricesAux allow provider tokens 0 fuel 0 iter acc = none := by
  intro fuel
  induction fuel with
  | zero => intro iter acc; rfl
  | succ n ih =>
    intro iter acc
    unfold rlGetPricesAux
    have hi : 0 < tokens.length := List.length_pos.mpr hne
    rw [if_pos hi]
    by_cases ha : allow iter = true
    · rw [if_pos ha]
      have hbatch : (tokens.drop 0).take 0 = ([] : List Token) := by
        rw [List.take_zero]
      rw [hbatch, hprov]
      exact ih (iter + 1) acc
    · rw [if_neg (by simpa using ha)]
      exact ih (iter + 1) acc

/-- C10: the batching loop of `RateLimitedService.GetPrices` terminates for
every token list, rate-limiter behavior and provider behavior whenever
`maxBatchSize ≥ 1` (the loop advances by `maxBatchSize` each iteration, so
`tokens.length + 1` iterations always suffice), while with `maxBatchSize = 0`
and a non-empty token list the loop never advances: no amount of fuel makes
it terminate (here under a provider that answers the empty batch without
error, as the real providers do). The model consumes the `maxBatchSize` field
as-is; no constructor or guard enforces the precondition. -/
theorem C10_rateLimited_termination :
    (∀ (allow : Nat → Bool) (provider : List Token → Option (List (Token × Price)))
        (tokens : List Token) (step : Nat), 1 ≤ step →
        (RateLimitedGetPrices allow provider tokens step).isSome = true) ∧
      (∀ (allow : Nat → Bool) (provider : List Token → Option (List (Token × Price)))
        (tokens : List Token), tokens ≠ [] → provider [] = some [] →
        ∀ (fuel iter : Nat) (acc : List (Token × Price)),
          rlGetPricesAux allow provider tokens 0 fuel 0 iter acc = none) := by
  constructor
  · intro allow provider tokens step hstep
    unfold RateLimitedGetPrices
    apply rlAux_terminates allow provider tokens step hstep
    omega
  · intro allow provider tokens hne hprov fuel iter acc
    exact rlAux_zero_step_diverges allow provider tokens hne hprov fuel iter acc

/-- C10 witness: both parts of `C10_rateLimited_termination` at concrete
inputs — one token with batch size 1 terminates; one token with batch size 0
yields `none` (still running) even with fuel 5. -/
theorem C10_rateLimited_termination_witness :
    (RateLimitedGetPrices (fun _ => true) (fun _ => some [])
        [⟨"tok", "Tok", "TOK", "0xa", 18⟩] 1).isSome = true ∧
      rlGetPricesAux (fun _ => true) (fun _ => some [])
        [⟨"tok", "Tok", "TOK", "0xa", 18⟩] 0 5 0 0 [] = none :=
  ⟨C10_rateLimited_termination.1 (fun _ => true) (fun _ => some [])
      [⟨"tok", "Tok", "TOK", "0xa", 18⟩] 1 (by decide),
   C10_rateLimited_termination.2 (fun _ => true) (fun _ => some [])
      [⟨"tok", "Tok", "TOK", "0xa", 18⟩] (by decide) rfl 5 0 []⟩

theorem rlAux_success (allow : Nat → Bool)
    (provider : List Token → Option (List (Token × Price)))
    (pf : List Token → List (Token × Price)) (tokens : List Token) (step : Nat)
    (hstep : 1 ≤ step) (hprov : ∀ b, provider b = some (pf b))
    (hsub : ∀ b t p, (t, p) ∈ pf b → t ∈ b) :
    ∀ (fuel iter : Nat) (acc : List (Token × Price)),
      tokens.length - iter * step < fuel →
      ∃ res, rlGetPricesAux allow provider tokens step fuel (iter * step) iter acc =
          some (some res) ∧
        ∀ t, (alookup res t).isSome = true →
          (alookup acc t).isSome = true ∨
            ∃ j, iter ≤ j ∧ allow j = true ∧ t ∈ batchAt tokens step j := by
  have key : ∀ (L A n : Nat), L - A < n + 1 → A < L → 1 ≤ step → L - (A + step) < n := by
    intro L A n h1 h2 h3
    omega
  intro fuel
  induction fuel with
  | zero =>
    intro iter acc h
    omega
  | succ n ih =>
    intro iter acc hfuel
    unfold rlGetPricesAux
    by_cases hlt : iter * step < tokens.length
    · rw [if_pos hlt]
      have hfuel2 : tokens.length - (iter + 1) * step < n := by
        rw [Nat.succ_mul]
        exact key tokens.length (iter * step) n hfuel hlt hstep
      by_cases ha : allow iter = true
      · rw [if_pos ha]
        simp only [hprov]
        have hstep2 : iter * step + step = (iter + 1) * step := (Nat.succ_mul iter step).symm
        rw [hstep2]
        rcases ih (iter + 1) (mergeFetched acc (pf ((tokens.drop (iter * step)).take step)))
            hfuel2 with ⟨res, hres, hprop⟩
        refine ⟨res, hres, ?_⟩
        intro t ht
        rcases hprop t ht with h1 | ⟨j, hj, haj, hb⟩
        · rcases mergeFetched_lookup_isSome _ _ _ h1 with h2 | ⟨p, hp⟩
          · exact Or.inl h2
          · exact Or.inr ⟨iter, le_refl _, ha, hsub _ t p hp⟩
        · exact Or.inr ⟨j, le_trans (Nat.le_succ iter) hj, haj, hb⟩
      · rw [if_neg (by simpa using ha)]
        have hstep2 : iter * step + step = (iter + 1) * step := (Nat.succ_mul iter step).symm
        rw [hstep2]
        rcases ih (iter + 1) acc hfuel2 with ⟨res, hres, hprop⟩
        refine ⟨res, hres, ?_⟩
        intro t ht
        rcases hprop t ht with h1 | ⟨j, hj, haj, hb⟩
        · exact Or.inl h1
        · exact Or.inr ⟨j, le_trans (Nat.le_succ iter) hj, haj, hb⟩
    · rw [if_neg hlt]
      exact ⟨acc, rfl, fun t ht => Or.inl ht⟩

theorem rlAux_admitted_fails (allow : Nat → Bool)
    (provider : List Token → Option (List (Token × Price)))
    (tokens : List Token) (step : Nat) (hstep : 1 ≤ step) (j : Nat)
    (hbefore : ∀ k, k < j → allow k = true →
      ∃ f, provider (batchAt tokens step k) = some f)
    (hj : allow j = true)
    (hfail : provider (batchAt tokens step j) = none)
    (hjlen : j * step < tokens.length) :
    ∀ (fuel iter : Nat) (acc : List (Token × Price)),
      tokens.length - iter * step < fuel → iter ≤ j →
      rlGetPricesAux allow provider tokens step fuel (iter * step) iter acc =
        some none := by
  intro fuel
  induction fuel with
  | zero =>
    intro iter acc hfuel hle
    have : iter * step ≤ j * step := Nat.mul_le_mul_right step hle
    omega
  | succ n ih =>
    intro iter acc hfuel hle
    unfold rlGetPricesAux
    have hi : iter * step < tokens.length :=
      lt_of_le_of_lt (Nat.mul_le_mul_right step hle) hjlen
    rw [if_pos hi]
    have hstep2 : iter * step + step = (iter + 1) * step := (Nat.succ_mul iter step).symm
    have hfuel2 : tokens.length - (iter + 1) * step < n := by
      rw [Nat.succ_mul]
      have : iter * step < tokens.length := hi
      omega
    by_cases hij : iter = j
    · subst hij
      rw [if_pos hj]
      have hb : (tokens.drop (iter * step)).take step = batchAt tokens step iter := rfl
      rw [hb, hfail]
    · have hlt2 : iter < j := lt_of_le_of_ne hle hij
      by_cases ha : allow iter = true
      · rw [if_pos ha]
        rcases hbefore iter hlt2 ha with ⟨f, hf⟩
        have hb : (tokens.drop (iter * step)).take step = batchAt tokens step iter := rfl
        rw [hb]
        simp only [hf]
        rw [hstep2]
        exact ih (iter + 1) (mergeFetched acc f) hfuel2 (by omega)
      · rw [if_neg (by simpa using ha)]
        rw [hstep2]
        exact ih (iter + 1) acc hfuel2 (by omega)

/-- C9: `RateLimitedService.GetPrices` processes the token list in fixed-size
batches, asking the rate limiter once per batch. When every batch's provider
call succeeds, the operation succeeds and a token of a rate-limiter-denied
batch is absent from the partial result (no error); and whenever the run
reaches an admitted batch whose provider call fails — every earlier batch
being either denied by the rate limiter or admitted with a successful
provider call — the whole operation returns an error and no results,
discarding any earlier batches' results. -/
theorem C9_rateLimitedService_batching (allow : Nat → Bool)
    (provider : List Token → Option (List (Token × Price)))
    (pf : List Token → List (Token × Price)) (tokens : List Token) (step : Nat)
    (hstep : 1 ≤ step) (hnd : tokens.Nodup) :
    ((∀ b, provider b = some (pf b)) → (∀ b t p, (t, p) ∈ pf b → t ∈ b) →
      ∃ res, RateLimitedGetPrices allow provider tokens step = some (some res) ∧
        ∀ j, allow j = false → ∀ t ∈ batchAt tokens step j, alookup res t = none) ∧
      (∀ j, (∀ k, k < j → allow k = true →
          ∃ f, provider (batchAt tokens step k) = some f) →
        allow j = true →
        provider (batchAt tokens step j) = none → j * step < tokens.length →
        RateLimitedGetPrices allow provider tokens step = some none) := by
  constructor
  · intro hprov hsub
    have h0 : (0 : Nat) = 0 * step := (Nat.zero_mul step).symm
    unfold RateLimitedGetPrices
    rcases rlAux_success allow provider pf tokens step hstep hprov hsub
        (tokens.length + 1) 0 [] (by rw [Nat.zero_mul]; omega) with ⟨res, hres, hprop⟩
    rw [Nat.zero_mul] at hres
    refine ⟨res, hres, ?_⟩
    intro j haj t htb
    cases hlook : alookup res t with
    | none => rfl
    | some p =>
      have hsome : (alookup res t).isSome = true := by rw [hlook]; rfl
      rcases hprop t hsome with h1 | ⟨j', _, haj', hb'⟩
      · simp [alookup] at h1
      · have hjj := batchAt_inj tokens step hstep hnd t j' j hb' htb
        rw [hjj] at haj'
        rw [haj] at haj'
        cases haj'
  · intro j hbefore hj hfail hjlen
    unfold RateLimitedGetPrices
    have h := rlAux_admitted_fails allow provider tokens step hstep j hbefore hj
      hfail hjlen (tokens.length + 1) 0 [] (by rw [Nat.zero_mul]; omega)
      (Nat.zero_le j)
    rw [Nat.zero_mul] at h
    exact h

/-- C9 witness: `C9_rateLimitedService_batching` at concrete inputs — two
tokens with batch size 1: (a) with batch 0 denied and batch 1 admitted under
an always-succeeding provider, the run succeeds and the denied batch's token
is absent; (b) with every batch admitted, batch 0's provider call succeeding
and batch 1's failing, the whole run returns an error and no results. -/
theorem C9_rateLimitedService_batching_witness :
    (∃ res, RateLimitedGetPrices (fun n => decide (n = 1)) (fun _ => some [])
        [⟨"a", "A", "A", "0xa", 18⟩, ⟨"b", "B", "B", "0xb", 18⟩] 1 =
          some (some res) ∧
        ∀ j, (fun n => decide (n = 1)) j = false →
          ∀ t ∈ batchAt [⟨"a", "A", "A", "0xa", 18⟩, ⟨"b", "B", "B", "0xb", 18⟩] 1 j,
            alookup res t = none) ∧
      RateLimitedGetPrices (fun _ => true)
        (fun b => if b = [⟨"b", "B", "B", "0xb", 18⟩] then none else some [])
        [⟨"a", "A", "A", "0xa", 18⟩, ⟨"b", "B", "B", "0xb", 18⟩] 1 = some none :=
  ⟨(C9_rateLimitedService_batching (fun n => decide (n = 1)) (fun _ => some [])
      (fun _ => []) [⟨"a", "A", "A", "0xa", 18⟩, ⟨"b", "B", "B", "0xb", 18⟩] 1
      (by decide) (by decide)).1 (fun b => rfl) (fun b t p h => absurd h (List.not_mem_nil _)),
   (C9_rateLimitedService_batching (fun _ => true)
      (fun b => if b = [⟨"b", "B", "B", "0xb", 18⟩] then none else some [])
      (fun _ => []) [⟨"a", "A", "A", "0xa", 18⟩, ⟨"b", "B", "B", "0xb", 18⟩] 1
      (by decide) (by decide)).2 1
      (by
        intro k hk _
        have hk0 : k = 0 := by omega
        subst hk0
        exact ⟨[], by decide⟩)
      rfl (by decide) (by decide)⟩
